import Mathlib

/-!
# Verification of the Polymarket insider-activity tracker core

A shallow embedding, in Lean 4, of the detection pipeline of the
`polymarket-insider-tracker` repository, together with proofs of the
behavioural properties stated in its specification.

Embedding conventions:

* JavaScript numbers produced by `parseFloat` on the decimal strings of the
  trade feed are modelled as exact rationals (`ℚ`); every concrete value
  checked below is exactly representable, and the comparisons performed by
  the pipeline (`>= 1000`, `>= 5000`) are exact at those values.
* JavaScript strings are Lean `String`s; where character-level slicing is
  proved about (`maskAddress`) the address is modelled as its character
  list.
* The insertion-ordered `Set`/`Map` objects of `main.ts` are modelled as
  insertion-ordered Lean lists (of ids, resp. of key/value pairs), with the
  `Set.add` / `Map.set` / `Map.delete` operations spelled out.
* Network effects are modelled by passing the upstream responses in as
  data: a retry script for the backoff wrapper, an activity list for the
  wallet fetch, and a per-wallet stats oracle for whole poll cycles.
-/

namespace InsiderTracker

-- ===========================================================================
-- config.ts: startup-time constants (defaults of the environment overrides)
-- ===========================================================================

/-- `config.ts`: minimum trade size in USD to consider (default 1000). -/
def MIN_TRADE_SIZE_USD : ℚ := 1000

/-- `config.ts`: maximum unique markets for a wallet to count as fresh
(default 5). -/
def MAX_UNIQUE_MARKETS : Nat := 5

/-- `config.ts`: initial backoff delay in milliseconds when rate limited. -/
def INITIAL_BACKOFF_MS : Nat := 1000

/-- `config.ts`: maximum backoff delay in milliseconds. -/
def MAX_BACKOFF_MS : Nat := 60000

/-- `config.ts`: backoff multiplier. -/
def BACKOFF_MULTIPLIER : Nat := 2

/-- `main.ts`: TTL of the per-wallet stats cache (1 minute). -/
def USER_CACHE_TTL_MS : Nat := 60000

-- ===========================================================================
-- JavaScript number parsing (api.ts uses `parseFloat(...) || 0`)
-- ===========================================================================

/-- The outcome of reading a decimal numeral: sign, integer digits,
fractional digits. -/
structure DecimalParse where
  neg : Bool
  intDigits : List Char
  fracDigits : List Char
deriving Repr, DecidableEq

/-- Value of a big-endian list of decimal digit characters. -/
def digitsVal (l : List Char) : Nat :=
  l.foldl (fun a c => a * 10 + (c.toNat - '0'.toNat)) 0

/-- Strip one optional leading sign character. -/
def parseSign : List Char → Bool × List Char
  | '-' :: rest => (true, rest)
  | '+' :: rest => (false, rest)
  | cs => (false, cs)

/-- Read the longest decimal-numeral prefix of `s` (optional whitespace,
optional sign, integer digits, optional `.` plus fraction digits), the way
JavaScript `parseFloat` does on the plain decimal strings delivered by the
trade feed; `none` models the `NaN` result when not a single digit can be
read.  (Exponent forms and `Infinity`, which the feed never produces, are
not modelled.) -/
def parseDecimal (s : String) : Option DecimalParse :=
  let cs0 := s.toList.dropWhile (fun c => c.isWhitespace)
  let sgn := parseSign cs0
  let intDigits := sgn.2.takeWhile (fun c => c.isDigit)
  let rest := sgn.2.dropWhile (fun c => c.isDigit)
  let fracDigits :=
    match rest with
    | '.' :: r => r.takeWhile (fun c => c.isDigit)
    | _ => []
  if intDigits.isEmpty && fracDigits.isEmpty then none
  else some ⟨sgn.1, intDigits, fracDigits⟩

/-- Exact value of a parsed decimal numeral. -/
def DecimalParse.toRat (d : DecimalParse) : ℚ :=
  let mag : ℚ :=
    (digitsVal d.intDigits : ℚ) +
      (digitsVal d.fracDigits : ℚ) / (10 : ℚ) ^ d.fracDigits.length
  if d.neg then -mag else mag

/-- JavaScript `parseFloat`, as an exact rational; `none` is `NaN`. -/
def jsParseFloat (s : String) : Option ℚ :=
  (parseDecimal s).map DecimalParse.toRat

/-- The idiom `parseFloat(x) || 0` of `calculateTradeValue`: a `NaN`
(unparseable field) coerces to `0`. -/
def parseNumOr0 (s : String) : ℚ :=
  (jsParseFloat s).getD 0

-- ===========================================================================
-- Data model (types.ts), restricted to the fields the detection core reads
-- ===========================================================================

/-- The fields of `Trade` (types.ts) consumed by the pipeline: the dedup
identifier, the market condition id, the side, the `size`/`price` strings
the USD value is derived from, and the taker wallet (`owner`).  The
display-only fields (timestamps, transaction hash, outcome label, ...) play
no part in any verified property and are omitted. -/
structure Trade where
  id : String
  market : String
  side : String
  size : String
  price : String
  owner : String
deriving Repr, DecidableEq

/-- api.ts `calculateTradeValue`: USD value of a trade is
`(parseFloat(trade.price) || 0) * (parseFloat(trade.size) || 0)`. -/
def calculateTradeValue (t : Trade) : ℚ :=
  parseNumOr0 t.price * parseNumOr0 t.size

/-- The fields of `UserActivity` (types.ts) consumed by
`calculateUserStats`: market condition id, activity type, optional side. -/
structure UserActivity where
  market : String
  type : String
  side : Option String
deriving Repr, DecidableEq

/-- JavaScript truthiness of the optional `side` field (absent or empty
string is falsy). -/
def isTruthy : Option String → Bool
  | some s => s != ""
  | none => false

-- ===========================================================================
-- api.ts utility functions
-- ===========================================================================

/-- api.ts `maskAddress`, on the address's character list: addresses
shorter than 10 characters (including the empty, falsy one) are returned
unchanged; otherwise `slice(0, 5) ++ "..." ++ slice(-3)`. -/
def maskAddress (address : List Char) : List Char :=
  if address.length < 10 then address
  else address.take 5 ++ ['.', '.', '.'] ++ address.drop (address.length - 3)

/-- JavaScript `Set.add` on an insertion-ordered list: append the element
unless already present. -/
def addId (s : List String) (id : String) : List String :=
  if s.contains id then s else s ++ [id]

/-- One step of the fold inside api.ts `calculateUserStats`: a qualifying
activity record (type `"trade"`, or carrying a truthy side) adds its market
to the unique-market set and bumps the trade counter. -/
def statsStep (acc : List String × Nat) (a : UserActivity) : List String × Nat :=
  if a.type == "trade" || isTruthy a.side then
    (addId acc.1 a.market, acc.2 + 1)
  else acc

/-- api.ts `calculateUserStats`: `(uniqueMarkets, totalTrades)` computed
from an activity history.  The `address` argument is carried (and ignored)
exactly as in the source. -/
def calculateUserStats (address : String) (activities : List UserActivity) :
    Nat × Nat :=
  let r := activities.foldl statsStep ([], 0)
  (r.1.length, r.2)

-- ===========================================================================
-- api.ts: rate limiting & retry logic (`withRetry`)
-- ===========================================================================

/-- Outcome of one attempt of the wrapped upstream call: success, an HTTP
429 throttling response, or any other failure. -/
inductive FetchOutcome
  | ok
  | throttled
  | failed
deriving Repr, DecidableEq

/-- Observable trace of one `withRetry` invocation: the sleeps performed
(in order), the value of the shared `currentBackoff` variable when the call
returns, and whether it returned a result (`true`) or `null`. -/
structure RetryTrace where
  sleeps : List Nat
  finalBackoff : Nat
  success : Bool
deriving Repr, DecidableEq

/-- api.ts `withRetry`, run against a script of successive upstream
outcomes, starting from shared state `currentBackoff = backoff`.  On
success the shared backoff resets to `INITIAL_BACKOFF_MS`; on a 429 it
sleeps the current backoff, doubles it capped at `MAX_BACKOFF_MS`, and
retries; on any other failure it returns `null` leaving the backoff as is.
An empty script (the call never returns) yields an empty trace. -/
def withRetry (backoff : Nat) : List FetchOutcome → RetryTrace
  | [] => ⟨[], backoff, false⟩
  | .ok :: _ => ⟨[], INITIAL_BACKOFF_MS, true⟩
  | .failed :: _ => ⟨[], backoff, false⟩
  | .throttled :: rest =>
    let r := withRetry (min (backoff * BACKOFF_MULTIPLIER) MAX_BACKOFF_MS) rest
    ⟨backoff :: r.sleeps, r.finalBackoff, r.success⟩

/-- The value of `currentBackoff` after `i` cap-and-double steps from `b`:
the delay the `i`-th consecutive retry (0-indexed) sleeps for. -/
def backoffSeq (b : Nat) : Nat → Nat
  | 0 => b
  | i + 1 => backoffSeq (min (b * BACKOFF_MULTIPLIER) MAX_BACKOFF_MS) i

/-- api.ts `fetchUserActivity` (and `fetchRecentTrades`): the
`result || []` coercion that turns a `null` from `withRetry` (any
non-throttling failure) into an empty list for the caller. -/
def fetchResultOrEmpty (result : Option (List UserActivity)) :
    List UserActivity :=
  result.getD []

-- ===========================================================================
-- main.ts: classification (`analyzeTrade`, lines 171-229)
-- ===========================================================================

/-- Alert severity tier. -/
inductive AlertLevel
  | HIGH
  | MEDIUM
  | LOW
deriving Repr, DecidableEq

/-- JavaScript `Number.prototype.toLocaleString()` for the non-negative
whole-dollar values the alert text renders in the verified scenarios:
decimal digits grouped in threes by commas.  (Values with a fractional
part, which no verified statement exercises, fall back to the raw rational
rendering.)  `groupRevAux` walks the reversed digit list, `k` counting
digits emitted since the last separator. -/
def groupRevAux : List Char → Nat → List Char
  | [], _ => []
  | c :: rest, k =>
    if k = 3 then ',' :: c :: groupRevAux rest 1
    else c :: groupRevAux rest (k + 1)

/-- Comma-group a natural number, `6000 ↦ "6,000"`. -/
def jsToLocaleNat (n : Nat) : String :=
  String.mk ((groupRevAux (Nat.repr n).toList.reverse 0).reverse)

/-- `valueUsd.toLocaleString()` as used in the reason string. -/
def jsToLocaleString (q : ℚ) : String :=
  if q.den = 1 ∧ 0 ≤ q.num then jsToLocaleNat q.num.toNat
  else toString q

/-- The classification section of main.ts `analyzeTrade` (lines 171-226):
given the wallet's lifetime unique-market count and the trade's USD value,
the freshness gate `uniqueMarkets <= MAX_UNIQUE_MARKETS` decides whether
any alert fires, and the tier rules are then evaluated in order, first
match winning, accumulating the reason clauses exactly as the source
pushes them.  Returns the severity and the assembled reason string. -/
def buildAlert (uniqueMarkets : Nat) (valueUsd : ℚ) :
    Option (AlertLevel × String) :=
  if uniqueMarkets ≤ MAX_UNIQUE_MARKETS then
    let reasons : List String :=
      ["Fresh Wallet (" ++ toString uniqueMarkets ++ " lifetime market" ++
          (if uniqueMarkets = 1 then "" else "s") ++ ")",
        "Taker BUY (aggressive)"]
    let result :=
      if uniqueMarkets ≤ 2 ∧ 5000 ≤ valueUsd then
        (AlertLevel.HIGH,
          reasons ++ ["Large Position ($" ++ jsToLocaleString valueUsd ++ ")"])
      else if uniqueMarkets ≤ 1 then
        (AlertLevel.HIGH, reasons ++ ["Brand New Wallet"])
      else if uniqueMarkets ≤ 3 then
        (AlertLevel.MEDIUM, reasons)
      else
        (AlertLevel.LOW, reasons)
    some (result.1, String.intercalate " | " result.2)
  else none

/-- The classifier as a pure function of `(uniqueMarkets, valueUsd)`:
the severity tier produced by `analyzeTrade`'s decision rule, `none` when
no alert fires. -/
def classify (uniqueMarkets : Nat) (valueUsd : ℚ) : Option AlertLevel :=
  (buildAlert uniqueMarkets valueUsd).map Prod.fst

-- ===========================================================================
-- main.ts: wallet-history cache (`analyzeTrade`, lines 144-168)
-- ===========================================================================

/-- An entry of `userStatsCache`: the memoized stats plus the `Date.now()`
timestamp they were stored at. -/
structure StatsEntry where
  uniqueMarkets : Nat
  totalTrades : Nat
  timestamp : Nat
deriving Repr, DecidableEq

/-- `userStatsCache` as an insertion-ordered association list (the JS
`Map`). -/
abbrev StatsCache := List (String × StatsEntry)

/-- JavaScript `Map.set`: update in place when the key is present (keeping
its position), otherwise append. -/
def mapSet (m : StatsCache) (k : String) (v : StatsEntry) : StatsCache :=
  if (m.lookup k).isSome then
    m.map (fun p => if p.1 = k then (k, v) else p)
  else m ++ [(k, v)]

/-- The cache-size limit of `analyzeTrade`: when the map holds more than
1000 entries, delete the entry of the first key in insertion order
(`userStatsCache.keys().next().value`). -/
def evictUserCache (m : StatsCache) : StatsCache :=
  if 1000 < m.length then
    match m.head? with
    | some kv => m.eraseP (fun p => p.1 == kv.1)
    | none => m
  else m

/-- Result of one wallet-stats lookup: the stats served, the cache
afterwards, and how many upstream activity fetches were performed. -/
structure WalletLookup where
  uniqueMarkets : Nat
  totalTrades : Nat
  cache : StatsCache
  fetches : Nat
deriving Repr, DecidableEq

/-- The stats-lookup section of main.ts `analyzeTrade` (lines 144-168):
serve from `userStatsCache` when the entry is younger than
`USER_CACHE_TTL_MS`; otherwise fetch the wallet's activity (`activities`
being what the upstream returns for this wallet right now), compute the
stats, store them under timestamp `now`, and apply the size limit. -/
def getWalletStats (activities : List UserActivity) (cache : StatsCache)
    (now : Nat) (wallet : String) : WalletLookup :=
  match cache.lookup wallet with
  | some e =>
    if now - e.timestamp < USER_CACHE_TTL_MS then
      ⟨e.uniqueMarkets, e.totalTrades, cache, 0⟩
    else
      let s := calculateUserStats wallet activities
      ⟨s.1, s.2, evictUserCache (mapSet cache wallet ⟨s.1, s.2, now⟩), 1⟩
  | none =>
    let s := calculateUserStats wallet activities
    ⟨s.1, s.2, evictUserCache (mapSet cache wallet ⟨s.1, s.2, now⟩), 1⟩

-- ===========================================================================
-- main.ts: poll cycle (`pollTrades`, lines 54-122)
-- ===========================================================================

/-- The dedup-set cap of `pollTrades` (lines 69-75): when
`processedTradeIds` exceeds 10000 entries, delete each of the first 5000
ids in insertion order (`Array.from(set).slice(0, 5000)`). -/
def evictDedup (s : List String) : List String :=
  if 10000 < s.length then
    (s.take 5000).foldl (fun acc id => acc.erase id) s
  else s

/-- An alert record (`SuspectTrade`): the triggering trade, its derived
USD value, the severity, and the reason string. -/
structure SuspectAlert where
  trade : Trade
  valueUsd : ℚ
  level : AlertLevel
  reason : String
deriving Repr, DecidableEq

/-- main.ts `analyzeTrade` with the cache layer abstracted into a stats
oracle `getStats` (wallet ↦ `(uniqueMarkets, totalTrades)`): bail out on a
falsy wallet, then classify. -/
def analyzeTrade (getStats : String → Nat × Nat) (t : Trade) (valueUsd : ℚ) :
    Option SuspectAlert :=
  if t.owner = "" then none
  else
    match buildAlert (getStats t.owner).1 valueUsd with
    | some (lvl, r) => some ⟨t, valueUsd, lvl, r⟩
    | none => none

/-- Everything one `pollTrades` cycle produces: the post-dedup new trades,
the alerts dispatched, and the processed-id set afterwards. -/
structure CycleResult where
  newTrades : List Trade
  alerts : List SuspectAlert
  processed : List String
deriving Repr, DecidableEq

/-- One cycle of main.ts `pollTrades` on a fetched batch `trades`:
filter out already-processed ids, add all new ids to the set, apply the
dedup cap, attach USD values, keep trades of at least
`MIN_TRADE_SIZE_USD`, keep taker BUYs with a truthy owner, and analyze the
survivors in order. -/
def processCycle (processed : List String) (getStats : String → Nat × Nat)
    (trades : List Trade) : CycleResult :=
  let newTrades := trades.filter (fun t => !(processed.contains t.id))
  let processed2 := evictDedup ((newTrades.map Trade.id).foldl addId processed)
  let withValue := newTrades.map (fun t => (t, calculateTradeValue t))
  let large := withValue.filter (fun tv => decide (MIN_TRADE_SIZE_USD ≤ tv.2))
  let aggressive := large.filter (fun tv => tv.1.side == "BUY" && tv.1.owner != "")
  let alerts := aggressive.filterMap (fun tv => analyzeTrade getStats tv.1 tv.2)
  ⟨newTrades, alerts, processed2⟩

/-- Repeated poll cycles: run `processCycle` on each successive fetched
batch, threading the processed-id set; returns the per-cycle results and
the final set. -/
def runCycles (getStats : String → Nat × Nat) (processed : List String) :
    List (List Trade) → List CycleResult × List String
  | [] => ([], processed)
  | b :: bs =>
    let r := processCycle processed getStats b
    let rest := runCycles getStats r.processed bs
    (r :: rest.1, rest.2)

-- ===========================================================================
-- Sample data and small auxiliaries used by the concrete checks
-- ===========================================================================

/-- Substring test (JS `String.includes`): some drop of the haystack has
the needle as a prefix. -/
def containsSub (hay needle : String) : Bool :=
  (List.range (hay.toList.length + 1)).any
    (fun i => needle.toList.isPrefixOf (hay.toList.drop i))

/-- The reason string `analyzeTrade` assembles for a 1-market wallet and a
$6000 trade. -/
def c2Reason : String :=
  "Fresh Wallet (1 lifetime market) | Taker BUY (aggressive) | Large Position ($6,000)"

/-- A concrete $6000 taker BUY (price 0.5, size 12000) from a fresh
wallet. -/
def c2Trade : Trade :=
  ⟨"0xtradeid1", "0xcondition1", "BUY", "12000", "0.5", "0xfreshwallet1"⟩

/-- A two-cycle feed in which the upstream returns the very same trade in
both polls. -/
def c3Batches : List (List Trade) := [[c2Trade], [c2Trade]]

/-- A processed-id set one over the dedup cap. -/
def bigIdList : List String := (List.range 10001).map (fun n => toString n)

/-- A one-record trade history (one lifetime market). -/
def oneMarketActivity : List UserActivity := [⟨"0xcondition1", "trade", none⟩]

/-- A two-record trade history over two markets. -/
def twoMarketActivity : List UserActivity :=
  [⟨"0xcondition1", "trade", none⟩, ⟨"0xcondition2", "trade", some "SELL"⟩]

-- ===========================================================================
-- Theorems
-- ===========================================================================

/-- `Set.add` grows the set by at most one element. -/
lemma addId_length_le (s : List String) (i : String) :
    (addId s i).length ≤ s.length + 1 := by
  rw [addId]
  split <;> simp

/-- **C1**: the classifier, under the caller-side preconditions, evaluates
the tier rules in order with first match winning: `(1, 10) ↦ HIGH`
(brand-new-wallet rule), `(2, 5000) ↦ HIGH` (large-position rule),
`(2, 4999) ↦ MEDIUM` (falls through to the `≤ 3` tier), `(5, 100000) ↦
LOW`, and `(6, 100000) ↦ none` (freshness gate fails, no alert). -/
theorem classify_tier_table :
    classify 1 10 = some AlertLevel.HIGH ∧
    classify 2 5000 = some AlertLevel.HIGH ∧
    classify 2 4999 = some AlertLevel.MEDIUM ∧
    classify 5 100000 = some AlertLevel.LOW ∧
    classify 6 100000 = none := by
  decide

/-- **C7**: the USD value of a trade is the product of its parsed `price`
and `size` strings — a trade priced `"0.42"` of size `"1000"` is worth
exactly `420` — and any field `parseFloat` cannot read a number from
contributes `0` (the `|| 0` coercion of the `NaN`); the computation is a
total function, so it never raises. -/
theorem calculateTradeValue_exact (t : Trade)
    (hp : t.price = "0.42") (hs : t.size = "1000") :
    calculateTradeValue t = 420 ∧
    (∀ s : String, jsParseFloat s = none → parseNumOr0 s = 0) := by
  constructor
  · have h1 : parseNumOr0 "0.42" = DecimalParse.toRat ⟨false, ['0'], ['4', '2']⟩ := rfl
    have h2 : parseNumOr0 "1000" =
        DecimalParse.toRat ⟨false, ['1', '0', '0', '0'], []⟩ := rfl
    have d0 : digitsVal [] = 0 := rfl
    have d1 : digitsVal ['0'] = 0 := rfl
    have d2 : digitsVal ['4', '2'] = 42 := rfl
    have d3 : digitsVal ['1', '0', '0', '0'] = 1000 := rfl
    rw [calculateTradeValue, hp, hs, h1, h2]
    simp only [DecimalParse.toRat, d0, d1, d2, d3]
    norm_num
  · intro s h
    rw [parseNumOr0, h]
    rfl

/-- Witness for `calculateTradeValue_exact` at a concrete trade, with a
concrete malformed field. -/
theorem calculateTradeValue_exact_witness :
    calculateTradeValue ⟨"0xt", "0xm", "BUY", "1000", "0.42", "0xw"⟩ = 420 ∧
    jsParseFloat "not a number" = none ∧
    parseNumOr0 "not a number" = 0 :=
  ⟨(calculateTradeValue_exact ⟨"0xt", "0xm", "BUY", "1000", "0.42", "0xw"⟩ rfl rfl).1,
   rfl,
   (calculateTradeValue_exact ⟨"0xt", "0xm", "BUY", "1000", "0.42", "0xw"⟩ rfl rfl).2
     "not a number" rfl⟩

/-- **C10**: for every activity history, the stats computed by
`calculateUserStats` satisfy `uniqueMarkets ≤ totalTrades`: only records
of type `"trade"` or carrying a (truthy) side are counted, and each such
record adds at most one new market while always bumping the trade
counter. -/
theorem uniqueMarkets_le_totalTrades (address : String)
    (activities : List UserActivity) :
    (calculateUserStats address activities).1 ≤
      (calculateUserStats address activities).2 := by
  have key : ∀ (l : List UserActivity) (acc : List String × Nat),
      acc.1.length ≤ acc.2 →
      (l.foldl statsStep acc).1.length ≤ (l.foldl statsStep acc).2 := by
    intro l
    induction l with
    | nil => intro acc h; simpa using h
    | cons a rest ih =>
      intro acc h
      rw [List.foldl_cons]
      apply ih
      rw [statsStep]
      split
      · have := addId_length_le acc.1 a.market
        simpa using by omega
      · exact h
  simpa [calculateUserStats] using key activities ([], 0) (by simp)

/-- **C9**: address masking is idempotent — masking an already-masked (or
short) string returns it unchanged — and for every address of at least 10
characters the masked output is exactly 11 characters: the first 5
characters of the input, three dots, and the last 3 characters of the
input. -/
theorem maskAddress_idempotent :
    (∀ a : List Char, maskAddress (maskAddress a) = maskAddress a) ∧
    (∀ a : List Char, 10 ≤ a.length →
      (maskAddress a).length = 11 ∧
      (maskAddress a).take 5 = a.take 5 ∧
      (maskAddress a).drop 8 = a.drop (a.length - 3)) := by
  have hshape : ∀ a : List Char, 10 ≤ a.length →
      maskAddress a = a.take 5 ++ ['.', '.', '.'] ++ a.drop (a.length - 3) := by
    intro a h
    rw [maskAddress, if_neg (by omega)]
  have hlen : ∀ a : List Char, 10 ≤ a.length → (maskAddress a).length = 11 := by
    intro a h
    rw [hshape a h]
    simp [List.length_take, List.length_drop]
    omega
  have htake : ∀ a : List Char, 10 ≤ a.length →
      (maskAddress a).take 5 = a.take 5 := by
    intro a h
    rw [hshape a h, List.append_assoc]
    have h5 : (a.take 5).length = 5 := by simp [List.length_take]; omega
    calc ((a.take 5) ++ (['.', '.', '.'] ++ a.drop (a.length - 3))).take 5
        = ((a.take 5) ++ (['.', '.', '.'] ++ a.drop (a.length - 3))).take
            (a.take 5).length := by rw [h5]
      _ = a.take 5 := List.take_left _ _
  have hdrop : ∀ a : List Char, 10 ≤ a.length →
      (maskAddress a).drop 8 = a.drop (a.length - 3) := by
    intro a h
    rw [hshape a h]
    have h8 : ((a.take 5) ++ ['.', '.', '.']).length = 8 := by
      simp [List.length_take]
      omega
    calc ((a.take 5) ++ ['.', '.', '.'] ++ a.drop (a.length - 3)).drop 8
        = ((a.take 5) ++ ['.', '.', '.'] ++ a.drop (a.length - 3)).drop
            ((a.take 5) ++ ['.', '.', '.']).length := by rw [h8]
      _ = a.drop (a.length - 3) := List.drop_left _ _
  refine ⟨?_, fun a h => ⟨hlen a h, htake a h, hdrop a h⟩⟩
  intro a
  by_cases h : a.length < 10
  · have hInner : maskAddress a = a := by rw [maskAddress, if_pos h]
    simp only [hInner]
  · have h10 : 10 ≤ a.length := by omega
    have hm : 10 ≤ (maskAddress a).length := by rw [hlen a h10]; omega
    have e1 : (maskAddress a).length - 3 = 8 := by rw [hlen a h10]
    rw [hshape (maskAddress a) hm, e1, htake a h10, hdrop a h10, hshape a h10]

/-- Witness for `maskAddress_idempotent` at a concrete 14-character
address. -/
theorem maskAddress_idempotent_witness :
    maskAddress (maskAddress "0x123456789abc".toList) =
      maskAddress "0x123456789abc".toList ∧
    10 ≤ ("0x123456789abc".toList).length ∧
    (maskAddress "0x123456789abc".toList).length = 11 :=
  ⟨maskAddress_idempotent.1 _,
   by decide,
   (maskAddress_idempotent.2 "0x123456789abc".toList (by decide)).1⟩

/-- **C8**: a non-throttling failure of the wallet-activity fetch yields an
empty list for the caller (`result || []`), the stats computed from an
empty history are `uniqueMarkets = 0, totalTrades = 0`, and a zero-market
wallet passes the freshness gate for every trade value — the failure leans
toward flagging, never toward skipping. -/
theorem activity_failure_flags :
    fetchResultOrEmpty none = [] ∧
    (∀ address : String, calculateUserStats address [] = (0, 0)) ∧
    (∀ v : ℚ, (classify 0 v).isSome = true) := by
  refine ⟨rfl, fun _ => rfl, fun v => ?_⟩
  rw [classify, buildAlert, if_pos (by rw [MAX_UNIQUE_MARKETS]; omega)]
  simp

/-- One cap-and-double step applied to `min (b * 2^i) MAX` is
`min (b * 2^(i+1)) MAX` (for the backoff cap). -/
lemma backoffSeq_formula (i : Nat) : ∀ b : Nat, b ≤ MAX_BACKOFF_MS →
    backoffSeq b i = min (b * 2 ^ i) MAX_BACKOFF_MS := by
  induction i with
  | zero =>
    intro b hb
    rw [backoffSeq]
    simp [hb]
  | succ i ih =>
    intro b hb
    have h2 : (0 : Nat) < 2 ^ i := Nat.pos_pow_of_pos i (by omega)
    have e : b * 2 ^ (i + 1) = b * BACKOFF_MULTIPLIER * 2 ^ i := by
      rw [BACKOFF_MULTIPLIER]; ring
    rw [backoffSeq, ih _ (Nat.min_le_right _ _), e]
    rcases Nat.le_total (b * BACKOFF_MULTIPLIER) MAX_BACKOFF_MS with h | h
    · rw [Nat.min_eq_left h]
    · rw [Nat.min_eq_right h]
      have h3 : MAX_BACKOFF_MS * 1 ≤ MAX_BACKOFF_MS * 2 ^ i :=
        Nat.mul_le_mul_left _ h2
      have h4 : MAX_BACKOFF_MS * 2 ^ i ≤ b * BACKOFF_MULTIPLIER * 2 ^ i :=
        Nat.mul_le_mul_right _ h
      omega

/-- `withRetry` on `k` straight 429s followed by a success sleeps the
`backoffSeq` delays in order, then resets the shared backoff. -/
lemma withRetry_replicate (k : Nat) : ∀ b : Nat,
    withRetry b (List.replicate k FetchOutcome.throttled ++ [FetchOutcome.ok]) =
      ⟨(List.range k).map (backoffSeq b), INITIAL_BACKOFF_MS, true⟩ := by
  induction k with
  | zero => intro b; rfl
  | succ k ih =>
    intro b
    rw [List.replicate_succ, List.cons_append, withRetry, ih,
      List.range_succ_eq_map, List.map_cons, List.map_map]
    rfl

/-- **C4**: under repeated throttling the retry delays start at the
configured floor (1000 ms) and double each retry, capped at the ceiling
(60000 ms) where they hold: starting from a reset backoff, the `i`-th
retry (0-indexed) of a call that sees `k` straight 429s and then succeeds
sleeps exactly `min(1000·2^i, 60000)` ms, the success resets the shared
backoff to the floor, and the very next throttled call therefore sleeps
the floor again. -/
theorem backoff_schedule (k : Nat) :
    INITIAL_BACKOFF_MS = 1000 ∧ MAX_BACKOFF_MS = 60000 ∧
    withRetry INITIAL_BACKOFF_MS
        (List.replicate k FetchOutcome.throttled ++ [FetchOutcome.ok]) =
      ⟨(List.range k).map (fun i => min (1000 * 2 ^ i) 60000),
        INITIAL_BACKOFF_MS, true⟩ ∧
    (∀ rest : List FetchOutcome,
      (withRetry INITIAL_BACKOFF_MS (FetchOutcome.throttled :: rest)).sleeps.head? =
        some INITIAL_BACKOFF_MS) := by
  refine ⟨rfl, rfl, ?_, fun rest => by rw [withRetry]; rfl⟩
  rw [withRetry_replicate]
  have : backoffSeq INITIAL_BACKOFF_MS = fun i => min (1000 * 2 ^ i) 60000 := by
    funext i
    rw [backoffSeq_formula i INITIAL_BACKOFF_MS (by rw [INITIAL_BACKOFF_MS, MAX_BACKOFF_MS]; omega),
      INITIAL_BACKOFF_MS, MAX_BACKOFF_MS]
  rw [this]

/-- Folding `erase` over the first `n` elements of a list, starting from
the list itself, removes exactly that prefix. -/
lemma foldl_erase_take (n : Nat) :
    ∀ l : List String, (l.take n).foldl (fun acc id => acc.erase id) l = l.drop n := by
  induction n with
  | zero => intro l; simp
  | succ n ih =>
    intro l
    cases l with
    | nil => simp
    | cons x xs =>
      rw [List.take_succ_cons, List.foldl_cons, List.erase_cons_head,
        List.drop_succ_cons]
      exact ih xs

/-- **C6**: whenever the processed-id set holds more than 10000 entries at
the end of the dedup step, the eviction (delete each of the first 5000 ids
in insertion order) leaves exactly the ids inserted after them — the set
becomes `s.drop 5000`, the more recently inserted half plus overflow. -/
theorem evictDedup_drops_oldest_half (s : List String) (h : 10000 < s.length) :
    evictDedup s = s.drop 5000 := by
  rw [evictDedup, if_pos h, foldl_erase_take]

/-- Witness for `evictDedup_drops_oldest_half` on a 10001-entry set. -/
theorem evictDedup_drops_oldest_half_witness :
    10000 < bigIdList.length ∧ evictDedup bigIdList = bigIdList.drop 5000 :=
  ⟨by simp [bigIdList], evictDedup_drops_oldest_half bigIdList (by simp [bigIdList])⟩

lemma lookup_append_right (w : String) :
    ∀ m l : StatsCache, m.lookup w = none → (m ++ l).lookup w = l.lookup w := by
  intro m
  induction m with
  | nil => intro l h; simp
  | cons kv rest ih =>
    intro l h
    rw [List.cons_append]
    rw [List.lookup] at h ⊢
    cases hk : (w == kv.1) with
    | true => simp [hk] at h
    | false => simp only [hk] at h ⊢; exact ih l h

lemma fresh_store_lookup (c : StatsCache) (w : String) (e : StatsEntry)
    (hmiss : c.lookup w = none) :
    (c ++ [(w, e)]).lookup w = some e := by
  rw [lookup_append_right w c _ hmiss, List.lookup]
  simp

lemma lookup_map_update (w : String) (v : StatsEntry) :
    ∀ m : StatsCache, (m.lookup w).isSome →
      (m.map (fun p => if p.1 = w then (w, v) else p)).lookup w = some v := by
  intro m
  induction m with
  | nil => simp
  | cons kv rest ih =>
    intro h
    rw [List.map_cons]
    by_cases hk : kv.1 = w
    · simp only [if_pos hk]
      rw [List.lookup]
      simp
    · simp only [if_neg hk]
      rw [List.lookup] at h ⊢
      have : (w == kv.1) = false := by simp [Ne.symm hk]
      simp only [this] at h ⊢
      exact ih h

lemma evictUserCache_noop (m : StatsCache) (h : m.length ≤ 1000) :
    evictUserCache m = m := by
  rw [evictUserCache, if_neg (by omega)]

lemma getWalletStats_hit (acts : List UserActivity) (c : StatsCache) (now : Nat)
    (w : String) (e : StatsEntry)
    (hl : c.lookup w = some e) (hfresh : now - e.timestamp < USER_CACHE_TTL_MS) :
    getWalletStats acts c now w = ⟨e.uniqueMarkets, e.totalTrades, c, 0⟩ := by
  simp only [getWalletStats, hl]
  rw [if_pos hfresh]

lemma getWalletStats_stale (acts : List UserActivity) (c : StatsCache) (now : Nat)
    (w : String) (e : StatsEntry)
    (hl : c.lookup w = some e) (hstale : ¬ now - e.timestamp < USER_CACHE_TTL_MS) :
    getWalletStats acts c now w =
      ⟨(calculateUserStats w acts).1, (calculateUserStats w acts).2,
        evictUserCache (mapSet c w
          ⟨(calculateUserStats w acts).1, (calculateUserStats w acts).2, now⟩), 1⟩ := by
  simp only [getWalletStats, hl]
  rw [if_neg hstale]

lemma getWalletStats_miss (acts : List UserActivity) (c : StatsCache) (now : Nat)
    (w : String) (hl : c.lookup w = none) :
    getWalletStats acts c now w =
      ⟨(calculateUserStats w acts).1, (calculateUserStats w acts).2,
        evictUserCache (mapSet c w
          ⟨(calculateUserStats w acts).1, (calculateUserStats w acts).2, now⟩), 1⟩ := by
  simp only [getWalletStats, hl]

/-- **C5**: starting from a cache not holding wallet `w` (and below the
size cap), the first lookup performs exactly one upstream activity fetch
and stores the computed stats under the lookup time `t1`; a second lookup
within the 60s TTL returns those identical stats with zero upstream
fetches and an unchanged cache; a lookup at or after TTL expiry performs
exactly one upstream fetch again and stores the freshly computed stats
with the new timestamp `t3`. -/
theorem wallet_cache_ttl (acts1 acts2 acts3 : List UserActivity)
    (cache : StatsCache) (w : String) (t1 t2 t3 : Nat)
    (hmiss : cache.lookup w = none)
    (hlen : cache.length < 1000)
    (h12 : t2 - t1 < USER_CACHE_TTL_MS)
    (h13 : USER_CACHE_TTL_MS ≤ t3 - t1) :
    (getWalletStats acts1 cache t1 w).fetches = 1 ∧
    (getWalletStats acts1 cache t1 w).cache.lookup w =
      some ⟨(calculateUserStats w acts1).1, (calculateUserStats w acts1).2, t1⟩ ∧
    getWalletStats acts2 (getWalletStats acts1 cache t1 w).cache t2 w =
      ⟨(getWalletStats acts1 cache t1 w).uniqueMarkets,
        (getWalletStats acts1 cache t1 w).totalTrades,
        (getWalletStats acts1 cache t1 w).cache, 0⟩ ∧
    (getWalletStats acts3 (getWalletStats acts1 cache t1 w).cache t3 w).fetches = 1 ∧
    (getWalletStats acts3 (getWalletStats acts1 cache t1 w).cache t3 w).cache.lookup w =
      some ⟨(calculateUserStats w acts3).1, (calculateUserStats w acts3).2, t3⟩ := by
  have hmap : mapSet cache w
      (⟨(calculateUserStats w acts1).1, (calculateUserStats w acts1).2, t1⟩ : StatsEntry) =
      cache ++ [(w, (⟨(calculateUserStats w acts1).1,
        (calculateUserStats w acts1).2, t1⟩ : StatsEntry))] := by
    simp [mapSet, hmiss]
  have hev := evictUserCache_noop (cache ++ [(w, (⟨(calculateUserStats w acts1).1,
      (calculateUserStats w acts1).2, t1⟩ : StatsEntry))]) (by simp; omega)
  have hr1 : getWalletStats acts1 cache t1 w =
      ⟨(calculateUserStats w acts1).1, (calculateUserStats w acts1).2,
        cache ++ [(w, (⟨(calculateUserStats w acts1).1,
          (calculateUserStats w acts1).2, t1⟩ : StatsEntry))], 1⟩ := by
    rw [getWalletStats_miss acts1 cache t1 w hmiss, hmap, hev]
  have hlook1 := fresh_store_lookup cache w
    (⟨(calculateUserStats w acts1).1, (calculateUserStats w acts1).2, t1⟩ : StatsEntry) hmiss
  refine ⟨by rw [hr1], by rw [hr1]; exact hlook1, ?_, ?_, ?_⟩
  · rw [hr1]
    exact getWalletStats_hit acts2 _ t2 w _ hlook1 h12
  · rw [hr1, getWalletStats_stale acts3 _ t3 w _ hlook1 (by simp; omega)]
  · rw [hr1, getWalletStats_stale acts3 _ t3 w _ hlook1 (by simp; omega)]
    have hupd : mapSet (cache ++ [(w, (⟨(calculateUserStats w acts1).1,
        (calculateUserStats w acts1).2, t1⟩ : StatsEntry))]) w
        (⟨(calculateUserStats w acts3).1, (calculateUserStats w acts3).2, t3⟩ : StatsEntry) =
        (cache ++ [(w, (⟨(calculateUserStats w acts1).1,
          (calculateUserStats w acts1).2, t1⟩ : StatsEntry))]).map
          (fun p => if p.1 = w then
            (w, (⟨(calculateUserStats w acts3).1,
              (calculateUserStats w acts3).2, t3⟩ : StatsEntry)) else p) := by
      rw [mapSet, if_pos (by rw [hlook1]; rfl)]
    rw [hupd]
    rw [evictUserCache_noop _ (by simp; omega)]
    exact lookup_map_update w _ _ (by rw [hlook1]; rfl)

/-- Witness for `wallet_cache_ttl`: empty cache, lookups at 0 ms, 59999 ms
and 60000 ms. -/
theorem wallet_cache_ttl_witness :
    (([] : StatsCache).lookup "0xfreshwallet1" = none) ∧
    (getWalletStats oneMarketActivity [] 0 "0xfreshwallet1").fetches = 1 ∧
    getWalletStats oneMarketActivity
        (getWalletStats oneMarketActivity [] 0 "0xfreshwallet1").cache
        59999 "0xfreshwallet1" =
      ⟨(getWalletStats oneMarketActivity [] 0 "0xfreshwallet1").uniqueMarkets,
        (getWalletStats oneMarketActivity [] 0 "0xfreshwallet1").totalTrades,
        (getWalletStats oneMarketActivity [] 0 "0xfreshwallet1").cache, 0⟩ ∧
    (getWalletStats twoMarketActivity
        (getWalletStats oneMarketActivity [] 0 "0xfreshwallet1").cache
        60000 "0xfreshwallet1").fetches = 1 :=
  ⟨rfl,
   (wallet_cache_ttl oneMarketActivity oneMarketActivity twoMarketActivity []
      "0xfreshwallet1" 0 59999 60000 rfl (by decide) (by decide) (by decide)).1,
   (wallet_cache_ttl oneMarketActivity oneMarketActivity twoMarketActivity []
      "0xfreshwallet1" 0 59999 60000 rfl (by decide) (by decide) (by decide)).2.2.1,
   (wallet_cache_ttl oneMarketActivity oneMarketActivity twoMarketActivity []
      "0xfreshwallet1" 0 59999 60000 rfl (by decide) (by decide) (by decide)).2.2.2.1⟩

/-- The concrete $6000 trade `c2Trade` is worth exactly $6000. -/
lemma c2Trade_value : calculateTradeValue c2Trade = 6000 := by
  have h1 : parseNumOr0 "0.5" = DecimalParse.toRat ⟨false, ['0'], ['5']⟩ := rfl
  have h2 : parseNumOr0 "12000" =
      DecimalParse.toRat ⟨false, ['1', '2', '0', '0', '0'], []⟩ := rfl
  have d0 : digitsVal [] = 0 := rfl
  have d1 : digitsVal ['0'] = 0 := rfl
  have d2 : digitsVal ['5'] = 5 := rfl
  have d3 : digitsVal ['1', '2', '0', '0', '0'] = 12000 := rfl
  show parseNumOr0 "0.5" * parseNumOr0 "12000" = 6000
  rw [h1, h2]
  simp only [DecimalParse.toRat, d0, d1, d2, d3]
  norm_num

/-- A cycle fed one $6000 taker BUY from a wallet with exactly one known
prior market produces exactly the one HIGH alert whose reason is
`c2Reason`: the large-position rule fires before the brand-new-wallet
rule. -/
lemma processCycle_single_6000 (t : Trade) (getStats : String → Nat × Nat)
    (k : Nat) (hside : t.side = "BUY") (howner : ¬ t.owner = "")
    (hval : calculateTradeValue t = 6000)
    (hstats : getStats t.owner = (1, k)) :
    processCycle [] getStats [t] =
      ⟨[t], [⟨t, 6000, AlertLevel.HIGH, c2Reason⟩], [t.id]⟩ := by
  have hba : buildAlert 1 6000 = some (AlertLevel.HIGH, c2Reason) := by decide
  have hd : decide (MIN_TRADE_SIZE_USD ≤ (6000 : ℚ)) = true := by decide
  simp [processCycle, evictDedup, addId, analyzeTrade, hval, hside, howner,
    hstats, hba, hd]

/-- **C2** fails on the code: for the concrete cycle of the claim — one
$6000 taker BUY from a wallet with 1 known prior market — exactly one HIGH
alert is produced, but because `uniqueMarkets ≤ 2 ∧ valueUsd ≥ 5000`
matches first, its reason text advertises the large position and contains
no "brand-new wallet" clause in any spelling the source uses. -/
theorem cycle_6000_no_brand_new_reason :
    (processCycle [] (fun _ => (1, 1)) [c2Trade]).alerts.length = 1 ∧
    ∀ a ∈ (processCycle [] (fun _ => (1, 1)) [c2Trade]).alerts,
      a.level = AlertLevel.HIGH ∧
      containsSub a.reason "brand" = false ∧
      containsSub a.reason "Brand" = false := by
  rw [processCycle_single_6000 c2Trade (fun _ => (1, 1)) 1 rfl (by decide)
    c2Trade_value rfl]
  exact ⟨rfl, by decide⟩

/-- **C2** (amended): feeding one cycle a single trade of USD value 6000,
side BUY, from a wallet with exactly 1 known prior market produces exactly
one HIGH alert, and its reason text contains the wallet's market count and
the "Large Position" clause (the large-position rule fires first; the
"Brand New Wallet" clause is reserved for values below $5000). -/
theorem cycle_6000_one_high_alert (t : Trade) (getStats : String → Nat × Nat)
    (k : Nat) (hside : t.side = "BUY") (howner : ¬ t.owner = "")
    (hval : calculateTradeValue t = 6000)
    (hstats : getStats t.owner = (1, k)) :
    (processCycle [] getStats [t]).alerts.map (fun a => (a.level, a.reason)) =
      [(AlertLevel.HIGH, c2Reason)] ∧
    containsSub c2Reason "(1 lifetime market" = true ∧
    containsSub c2Reason "Large Position" = true := by
  rw [processCycle_single_6000 t getStats k hside howner hval hstats]
  exact ⟨rfl, by decide, by decide⟩

/-- Witness for `cycle_6000_one_high_alert` at the concrete trade
`c2Trade`. -/
theorem cycle_6000_one_high_alert_witness :
    c2Trade.side = "BUY" ∧ ¬ c2Trade.owner = "" ∧
    calculateTradeValue c2Trade = 6000 ∧
    (processCycle [] (fun _ => (1, 1)) [c2Trade]).alerts.map
        (fun a => (a.level, a.reason)) = [(AlertLevel.HIGH, c2Reason)] :=
  ⟨rfl, by decide, c2Trade_value,
   (cycle_6000_one_high_alert c2Trade (fun _ => (1, 1)) 1 rfl (by decide)
      c2Trade_value rfl).1⟩

lemma length_le_of_nodup_subset (l u : List String) (hl : l.Nodup) (hs : l ⊆ u) :
    l.length ≤ u.length := by
  calc l.length = l.toFinset.card := (List.toFinset_card_of_nodup hl).symm
    _ ≤ u.toFinset.card := Finset.card_le_card (fun x hx => by
        simp only [List.mem_toFinset] at hx ⊢
        exact hs hx)
    _ ≤ u.length := u.toFinset_card_le

lemma foldl_addId_append : ∀ ids s : List String, ids.Nodup →
    (∀ i ∈ ids, i ∉ s) → ids.foldl addId s = s ++ ids := by
  intro ids
  induction ids with
  | nil => intro s _ _; simp
  | cons i rest ih =>
    intro s hnd hdisj
    have hci : s.contains i = false := by
      cases hc : s.contains i
      · rfl
      · exact absurd (List.mem_of_elem_eq_true hc)
          (hdisj i (List.mem_cons_self i rest))
    have hadd : addId s i = s ++ [i] := by
      rw [addId, hci]
      rfl
    rw [List.foldl_cons, hadd,
      ih (s ++ [i]) (List.nodup_cons.mp hnd).2 ?_, List.append_assoc,
      List.singleton_append]
    intro x hx
    rw [List.mem_append]
    push_neg
    refine ⟨hdisj x (List.mem_cons_of_mem i hx), ?_⟩
    rw [List.mem_singleton]
    intro he
    exact absurd (he ▸ hx) (List.nodup_cons.mp hnd).1

lemma analyzeTrade_trade_eq (getStats : String → Nat × Nat) (t : Trade) (v : ℚ)
    (a : SuspectAlert) (h : analyzeTrade getStats t v = some a) : a.trade = t := by
  rw [analyzeTrade] at h
  split at h
  · exact absurd h (by simp)
  · cases hb : buildAlert (getStats t.owner).1 v with
    | none => rw [hb] at h; exact absurd h (by simp)
    | some p =>
      rw [hb] at h
      cases p with
      | mk lvl r =>
        simp only [Option.some.injEq] at h
        rw [← h]

lemma filterMap_ids_sublist (g : Trade × ℚ → Option SuspectAlert)
    (hg : ∀ tv a, g tv = some a → a.trade = tv.1) (p : Trade × ℚ → Bool) :
    ∀ l : List (Trade × ℚ),
      (((l.filter p).filterMap g).map (fun a => a.trade.id)).Sublist
        (l.map (fun tv => tv.1.id)) := by
  intro l
  induction l with
  | nil => simp
  | cons tv rest ih =>
    rw [List.map_cons]
    by_cases hp : p tv
    · rw [List.filter_cons_of_pos hp]
      cases ha : g tv with
      | none =>
        rw [List.filterMap_cons_none ha]
        exact ih.cons _
      | some a =>
        rw [List.filterMap_cons_some ha, List.map_cons, hg tv a ha]
        exact ih.cons₂ _
    · rw [List.filter_cons_of_neg (by simpa using hp)]
      exact ih.cons _

lemma processCycle_alert_ids_sublist (processed : List String)
    (getStats : String → Nat × Nat) (b : List Trade) :
    (((processCycle processed getStats b).alerts).map
        (fun a => a.trade.id)).Sublist
      (((processCycle processed getStats b).newTrades).map Trade.id) := by
  simp only [processCycle]
  rw [List.filter_filter]
  have hmm : ((b.filter (fun t => !(processed.contains t.id))).map
        (fun t => (t, calculateTradeValue t))).map (fun tv => tv.1.id) =
      (b.filter (fun t => !(processed.contains t.id))).map Trade.id := by
    rw [List.map_map]
    rfl
  rw [← hmm]
  exact filterMap_ids_sublist (fun tv => analyzeTrade getStats tv.1 tv.2)
    (fun tv a ha => analyzeTrade_trade_eq getStats tv.1 tv.2 a ha) _ _

lemma flatMap_sublist {α β : Type} (f g : α → List β) :
    ∀ l : List α, (∀ a ∈ l, (f a).Sublist (g a)) →
      (l.flatMap f).Sublist (l.flatMap g) := by
  intro l
  induction l with
  | nil => intro _; simp
  | cons x xs ih =>
    intro h
    rw [List.flatMap_cons, List.flatMap_cons]
    exact (h x (List.mem_cons_self x xs)).append
      (ih (fun a ha => h a (List.mem_cons_of_mem x ha)))

lemma runCycles_mem (getStats : String → Nat × Nat) :
    ∀ (batches : List (List Trade)) (processed : List String) (c : CycleResult),
      c ∈ (runCycles getStats processed batches).1 →
      ∃ p b, c = processCycle p getStats b := by
  intro batches
  induction batches with
  | nil => intro processed c hc; simp [runCycles] at hc
  | cons b bs ih =>
    intro processed c hc
    simp only [runCycles, List.mem_cons] at hc
    rcases hc with rfl | hc
    · exact ⟨processed, b, rfl⟩
    · exact ih _ c hc

lemma runCycles_invariant (getStats : String → Nat × Nat) (U : List String)
    (hUlen : U.length ≤ 10000) :
    ∀ (batches : List (List Trade)) (processed : List String),
      processed.Nodup → processed ⊆ U →
      (∀ b ∈ batches, ∀ t ∈ b, t.id ∈ U) →
      (∀ b ∈ batches, (b.map Trade.id).Nodup) →
      (runCycles getStats processed batches).2 =
        processed ++ (runCycles getStats processed batches).1.flatMap
          (fun c => c.newTrades.map Trade.id) ∧
      (processed ++ (runCycles getStats processed batches).1.flatMap
          (fun c => c.newTrades.map Trade.id)).Nodup ∧
      (processed ++ (runCycles getStats processed batches).1.flatMap
          (fun c => c.newTrades.map Trade.id)) ⊆ U := by
  intro batches
  induction batches with
  | nil =>
    intro processed h1 h2 _ _
    refine ⟨by simp [runCycles], by simpa [runCycles] using h1,
      by simpa [runCycles] using h2⟩
  | cons b bs ih =>
    intro processed h1 h2 h3 h4
    have hNodupB : (b.map Trade.id).Nodup := h4 b (List.mem_cons_self _ _)
    have hsub : ((b.filter (fun t => !(processed.contains t.id))).map
        Trade.id).Sublist (b.map Trade.id) :=
      (List.filter_sublist b).map _
    have hnewN : ((b.filter (fun t => !(processed.contains t.id))).map
        Trade.id).Nodup := hNodupB.sublist hsub
    have hdisj : ∀ i ∈ (b.filter (fun t => !(processed.contains t.id))).map
        Trade.id, i ∉ processed := by
      intro i hi hmem
      simp only [List.mem_map, List.mem_filter] at hi
      rcases hi with ⟨t, ⟨_, hqt⟩, rfl⟩
      rw [Bool.not_eq_true'] at hqt
      have hc2 : processed.contains t.id = true := List.elem_eq_true_of_mem hmem
      rw [hc2] at hqt
      exact Bool.noConfusion hqt
    have hsubU : ∀ i ∈ (b.filter (fun t => !(processed.contains t.id))).map
        Trade.id, i ∈ U := by
      intro i hi
      simp only [List.mem_map, List.mem_filter] at hi
      rcases hi with ⟨t, ⟨htb, _⟩, rfl⟩
      exact h3 b (List.mem_cons_self _ _) t htb
    have hfold : ((b.filter (fun t => !(processed.contains t.id))).map
        Trade.id).foldl addId processed =
        processed ++ (b.filter (fun t => !(processed.contains t.id))).map
          Trade.id :=
      foldl_addId_append _ _ hnewN hdisj
    have hP1nodup : (processed ++ (b.filter
        (fun t => !(processed.contains t.id))).map Trade.id).Nodup := by
      rw [List.nodup_append]
      exact ⟨h1, hnewN, fun x hx hx2 => hdisj x hx2 hx⟩
    have hP1sub : (processed ++ (b.filter
        (fun t => !(processed.contains t.id))).map Trade.id) ⊆ U := by
      intro x hx
      rcases List.mem_append.mp hx with h | h
      · exact h2 h
      · exact hsubU x h
    have hP1len := length_le_of_nodup_subset _ U hP1nodup hP1sub
    have hev : evictDedup (processed ++ (b.filter
        (fun t => !(processed.contains t.id))).map Trade.id) =
        processed ++ (b.filter (fun t => !(processed.contains t.id))).map
          Trade.id := by
      rw [evictDedup, if_neg (by omega)]
    have hnewT : (processCycle processed getStats b).newTrades =
        b.filter (fun t => !(processed.contains t.id)) := rfl
    have hproc : (processCycle processed getStats b).processed =
        processed ++ (b.filter (fun t => !(processed.contains t.id))).map
          Trade.id := by
      show evictDedup (((b.filter (fun t => !(processed.contains t.id))).map
        Trade.id).foldl addId processed) = _
      rw [hfold, hev]
    have hrun : runCycles getStats processed (b :: bs) =
        (processCycle processed getStats b ::
          (runCycles getStats (processCycle processed getStats b).processed
            bs).1,
          (runCycles getStats (processCycle processed getStats b).processed
            bs).2) := rfl
    obtain ⟨ihEq, ihNodup, ihSub⟩ := ih (processed ++ (b.filter
        (fun t => !(processed.contains t.id))).map Trade.id)
      hP1nodup hP1sub (fun b2 hb2 => h3 b2 (List.mem_cons_of_mem _ hb2))
      (fun b2 hb2 => h4 b2 (List.mem_cons_of_mem _ hb2))
    rw [hrun]
    simp only [List.flatMap_cons, hnewT, hproc]
    rw [← List.append_assoc]
    exact ⟨ihEq, ihNodup, ihSub⟩

/-- **C3**: every new identifier is added to the processed set before any
downstream filtering, classification or alerting of the cycle begins, so —
given batches whose trade ids are unique within each fetched page (the
data model declares the identifier unique) and an execution in which fewer
than 10000 distinct identifiers are ever seen, so the FIFO cap never
evicts — every identifier appears in the "new trades" output of at most
one poll cycle (the concatenation of all cycles' new-trade ids has no
duplicates), and consequently no two alerts are ever emitted for the same
trade identifier. -/
theorem trade_id_single_cycle (getStats : String → Nat × Nat)
    (batches : List (List Trade))
    (hN : ∀ b ∈ batches, (b.map Trade.id).Nodup)
    (hD : ((batches.flatMap (fun b => b.map Trade.id)).dedup).length < 10000) :
    ((runCycles getStats [] batches).1.flatMap
      (fun c => c.newTrades.map Trade.id)).Nodup ∧
    ((runCycles getStats [] batches).1.flatMap
      (fun c => c.alerts.map (fun a => a.trade.id))).Nodup := by
  have hmem : ∀ b ∈ batches, ∀ t ∈ b,
      t.id ∈ (batches.flatMap (fun b => b.map Trade.id)).dedup := by
    intro b hb t ht
    rw [List.mem_dedup]
    exact List.mem_flatMap.mpr ⟨b, hb, List.mem_map_of_mem _ ht⟩
  obtain ⟨_, hNodup, _⟩ := runCycles_invariant getStats
    ((batches.flatMap (fun b => b.map Trade.id)).dedup) (by omega) batches []
    List.nodup_nil (List.nil_subset _) hmem hN
  have hflat : ((runCycles getStats [] batches).1.flatMap
      (fun c => c.newTrades.map Trade.id)).Nodup := by simpa using hNodup
  refine ⟨hflat, ?_⟩
  have hsub : ((runCycles getStats [] batches).1.flatMap
      (fun c => c.alerts.map (fun a => a.trade.id))).Sublist
      ((runCycles getStats [] batches).1.flatMap
        (fun c => c.newTrades.map Trade.id)) := by
    apply flatMap_sublist
    intro c hc
    obtain ⟨p, b2, rfl⟩ := runCycles_mem getStats batches [] c hc
    exact processCycle_alert_ids_sublist p getStats b2
  exact hsub.nodup hflat

/-- Witness for `trade_id_single_cycle`: the upstream returns the same
trade in two successive polls; it surfaces (and can alert) only once. -/
theorem trade_id_single_cycle_witness :
    (∀ b ∈ c3Batches, (b.map Trade.id).Nodup) ∧
    ((c3Batches.flatMap (fun b => b.map Trade.id)).dedup).length < 10000 ∧
    ((runCycles (fun _ => (1, 1)) [] c3Batches).1.flatMap
      (fun c => c.newTrades.map Trade.id)).Nodup :=
  ⟨by decide, by decide,
    (trade_id_single_cycle (fun _ => (1, 1)) c3Batches (by decide) (by decide)).1⟩

end InsiderTracker
